import Mathlib

/-!
Verification of the dipole post-processing pipeline of `hnn-core`
(`hnn_core/dipole.py` and `hnn_core/viz.py`).

The Python code is shallowly embedded: floating-point numbers become exact
rationals (`ℚ`), numpy arrays become `List ℚ`, the `data` dict with its three
fixed keys `agg`, `L2`, `L5` becomes three list-valued fields, in-place
mutation becomes functional update, and `raise ValueError(...)` becomes
`Except.error` carrying the message.  External numerical kernels that live in
scipy/numpy/mne rather than in this repository (the Hamming-window convolution
inside `_hammfilt`, `scipy.signal.savgol_filter`, `scipy.signal.decimate`,
`mne.time_frequency.tfr_array_morlet`) are passed in as explicit function
parameters, since no claim depends on their numeric output — only on the
control flow, validation and index bookkeeping of this repository's code.
-/

/-- One dipole trial (`Dipole.__init__` in `dipole.py`).  `data` is stored as
the three columns of the constructor's `(n_times, 3)` array: `agg`, `L2`, `L5`.
The (unused) attribute `N = data.shape[0]` is omitted. -/
structure Dipole where
  times : List ℚ
  agg : List ℚ
  L2 : List ℚ
  L5 : List ℚ
  nave : ℕ
  units : String
  sfreq : ℚ
deriving DecidableEq, Repr

/-- `Dipole.__init__(times, data, nave=1)`: sets `units = 'fAm'`,
`sfreq = 1000 / (times[1] - times[0])`. -/
def dipoleInit (times agg L2 L5 : List ℚ) (nave : ℕ := 1) : Dipole :=
  { times := times, agg := agg, L2 := L2, L5 := L5, nave := nave,
    units := "fAm",
    sfreq := 1000 / (times.getD 1 0 - times.getD 0 0) }

instance : Inhabited Dipole := ⟨dipoleInit [] [] [] []⟩

/-- Layer lookup `dpl.data[layer]` for the three keys installed by the
constructor. -/
def Dipole.layerData (d : Dipole) (layer : String) : List ℚ :=
  if layer = "agg" then d.agg
  else if layer = "L2" then d.L2
  else if layer = "L5" then d.L5
  else []

/-- The time-dependent L5 offset subtracted by `baseline_renormalize`
(the three regimes of `dipole.py` lines 399-403), per sample.
`dpl_offset['L5'] = N_pyr * -49.0502`; `m = 3.4770508e-3`, `b = -51.231085`;
`t1 = 750`, `m1 = 1.01e-4`, `b1 = -48.412078`. -/
def l5Offset (npyr : ℚ) (t : ℚ) : ℚ :=
  if t ≤ 37 then npyr * (-490502 / 10000)
  else if t < 750 then npyr * ((34770508 / 10 ^ 10) * t + (-51231085 / 10 ^ 6))
  else npyr * ((101 / 10 ^ 6) * t + (-48412078 / 10 ^ 6))

/-- `Dipole.baseline_renormalize(N_pyr_x, N_pyr_y)`: no-op when units are not
`'fAm'`; otherwise subtracts `N_pyr * 0.0443` from every `L2` sample, the
piecewise offset `l5Offset` from every `L5` sample, and recomputes
`agg = L2 + L5`. -/
def baselineRenormalize (d : Dipole) (npyrX npyrY : ℤ) : Dipole :=
  if d.units ≠ "fAm" then d
  else
    let npyr : ℚ := (npyrX : ℚ) * (npyrY : ℚ)
    let l2 := d.L2.map (fun x => x - npyr * (443 / 10000))
    let l5 := (d.times.zip d.L5).map (fun p => p.2 - l5Offset npyr p.1)
    { d with L2 := l2, L5 := l5, agg := List.zipWith (· + ·) l2 l5 }

/-- A concrete raw-field dipole used for counterexamples and witnesses:
two samples at t = 0, 1 ms, all-zero data. -/
def dZero : Dipole := dipoleInit [0, 1] [0, 0] [0, 0] [0, 0]

/-- C1 counterexample: with `N = n_pyr_x * n_pyr_y = 1` and an all-zero L5
channel, the sample at `t = 0 ≤ 37` becomes `+49.0502` after
`baseline_renormalize`, not the `0 - 1 * 49.0502 = -49.0502` the claim
requires: the code subtracts `N * (-49.0502)`, i.e. it adds `N * 49.0502`. -/
theorem baseline_l5_counterexample :
    ¬ ((baselineRenormalize dZero 1 1).L5.getD 0 0 =
        dZero.L5.getD 0 0 - ((1 * 1 : ℚ)) * (490502 / 10000)) := by
  norm_num [baselineRenormalize, dZero, dipoleInit, l5Offset]

/-- C1 (amended): for every Dipole with units `'fAm'` and every sample `i`
with `times[i] ≤ 37`, `baseline_renormalize(n_pyr_x, n_pyr_y)` subtracts the
constant `N * (-49.0502)` (with `N = n_pyr_x * n_pyr_y`) from `data['L5'][i]`,
i.e. the new value equals the old value plus `N * 49.0502`. -/
theorem baseline_l5_low_t_amended (d : Dipole) (nx ny : ℤ) (i : ℕ)
    (hu : d.units = "fAm") (hit : i < d.times.length) (hil : i < d.L5.length)
    (ht : d.times.getD i 0 ≤ 37) :
    (baselineRenormalize d nx ny).L5.getD i 0 =
      d.L5.getD i 0 - ((nx : ℚ) * (ny : ℚ)) * (-490502 / 10000) := by
  have hzip : i < (d.times.zip d.L5).length := by
    simp only [List.length_zip]
    omega
  have h5 : (baselineRenormalize d nx ny).L5 =
      (d.times.zip d.L5).map
        (fun p => p.2 - l5Offset ((nx : ℚ) * (ny : ℚ)) p.1) := by
    simp [baselineRenormalize, hu]
  rw [List.getD_eq_getElem _ _ hit] at ht
  rw [h5, List.getD_eq_getElem _ _ (by simpa using hzip),
    List.getElem_map, List.getElem_zip, List.getD_eq_getElem _ _ hil]
  simp [l5Offset, ht]

/-- Witness for C1's amended theorem at the concrete dipole `dZero`. -/
theorem baseline_l5_low_t_amended_witness :
    (baselineRenormalize dZero 1 1).L5.getD 0 0 =
      dZero.L5.getD 0 0 - ((1 : ℚ) * (1 : ℚ)) * (-490502 / 10000) :=
  baseline_l5_low_t_amended dZero 1 1 0 rfl (by norm_num [dZero, dipoleInit])
    (by norm_num [dZero, dipoleInit]) (by norm_num [dZero, dipoleInit])

/-- C2: for every Dipole with units `'fAm'`, immediately after
`baseline_renormalize` the `agg` channel equals the elementwise sum of the
corrected `L2` and `L5` channels — the aggregate is recomputed as the literal
sum (`dipole.py` line 406). -/
theorem baseline_agg_is_sum (d : Dipole) (nx ny : ℤ) (hu : d.units = "fAm") :
    (baselineRenormalize d nx ny).agg =
      List.zipWith (· + ·) (baselineRenormalize d nx ny).L2
        (baselineRenormalize d nx ny).L5 := by
  simp [baselineRenormalize, hu]

/-- Witness for C2 at the concrete dipole `dZero`. -/
theorem baseline_agg_is_sum_witness :
    (baselineRenormalize dZero 2 3).agg =
      List.zipWith (· + ·) (baselineRenormalize dZero 2 3).L2
        (baselineRenormalize dZero 2 3).L5 :=
  baseline_agg_is_sum dZero 2 3 (by decide)

/-- Error message of `average_dipoles` for fewer than two inputs. -/
def insufficientMsg : String :=
  "Need at least two dipole object to compute an average"

/-- Error message of `average_dipoles` for an input that is already an
average, naming its position and trial count. -/
def alreadyAveragedMsg (idx nave : ℕ) : String :=
  "Dipole at index " ++ toString idx ++ " was already an average of " ++
    toString nave ++ " trials. Cannot reaverage"

/-- The `for dpl_idx, dpl in enumerate(dpls)` scan of `average_dipoles`:
first index (counting from `start`) whose dipole has `nave > 1`, with its
`nave`. -/
def findOffending : List Dipole → ℕ → Option (ℕ × ℕ)
  | [], _ => none
  | d :: rest, start =>
      if d.nave > 1 then some (start, d.nave)
      else findOffending rest (start + 1)

/-- `np.mean(np.array([...]), axis=0)` over equal-length rows: column `i` of
the result is the sum of the rows' entries at `i` divided by the number of
rows.  The column count is taken from the first row. -/
def meanLists (ls : List (List ℚ)) : List ℚ :=
  match ls with
  | [] => []
  | l0 :: _ =>
      (List.range l0.length).map
        (fun i => (ls.map (fun l => l.getD i 0)).sum / (ls.length : ℚ))

/-- `average_dipoles(dpls)` (`dipole.py`): rejects fewer than two inputs,
rejects (at its position) any input with `nave > 1`, and otherwise builds a
new `Dipole` from the first input's times and the columnwise means, setting
`nave` to the number of inputs. -/
def averageDipoles (dpls : List Dipole) : Except String Dipole :=
  if dpls.length < 2 then .error insufficientMsg
  else
    match findOffending dpls 0 with
    | some (idx, nave) => .error (alreadyAveragedMsg idx nave)
    | none =>
        let aggAvg := meanLists (dpls.map (·.agg))
        let l2Avg := meanLists (dpls.map (·.L2))
        let l5Avg := meanLists (dpls.map (·.L5))
        let avg := dipoleInit (dpls.headD default).times aggAvg l2Avg l5Avg
        .ok { avg with nave := dpls.length }

theorem findOffending_none (dpls : List Dipole)
    (h : ∀ d ∈ dpls, d.nave = 1) : ∀ s, findOffending dpls s = none := by
  induction dpls with
  | nil => intro s; rfl
  | cons d rest ih =>
      intro s
      have hd : d.nave = 1 := h d (by simp)
      simp only [findOffending, hd]
      exact ih (fun x hx => h x (by simp [hx])) (s + 1)

theorem findOffending_first (dpls : List Dipole) (i : ℕ)
    (hi : i < dpls.length) (hbad : (dpls.getD i default).nave > 1)
    (hfirst : ∀ j, j < i → (dpls.getD j default).nave = 1) :
    ∀ s, findOffending dpls s = some (s + i, (dpls.getD i default).nave) := by
  induction dpls generalizing i with
  | nil => simp at hi
  | cons d rest ih =>
      intro s
      cases i with
      | zero =>
          simp only [List.getD_cons_zero] at hbad ⊢
          simp [findOffending, hbad]
      | succ k =>
          have hd : d.nave = 1 := by
            have := hfirst 0 (Nat.succ_pos k)
            simpa using this
          simp only [List.getD_cons_succ] at hbad ⊢
          have hrec := ih k (Nat.lt_of_succ_lt_succ (by simpa using hi)) hbad
            (fun j hj => by
              have := hfirst (j + 1) (Nat.succ_lt_succ hj)
              simpa using this) (s + 1)
          simp only [findOffending]
          rw [if_neg (by omega), hrec]
          have harith : s + 1 + k = s + (k + 1) := by omega
          rw [harith]

/-- Entry `i` of `meanLists`, for `i` below the first row's length. -/
theorem meanLists_getD (l0 : List ℚ) (ls : List (List ℚ)) (i : ℕ)
    (hi : i < l0.length) :
    (meanLists (l0 :: ls)).getD i 0 =
      ((l0 :: ls).map (fun l => l.getD i 0)).sum / ((l0 :: ls).length : ℚ) := by
  simp only [meanLists]
  rw [List.getD_eq_getElem _ _ (by simpa using hi)]
  simp

/-- C3: `average_dipoles` on ≥ 2 dipoles, all with `nave = 1` and identical,
equally long time/data grids, returns a dipole whose every layer is the
elementwise arithmetic mean of the inputs' layers and whose `nave` is the
number of inputs; a single-element list yields the insufficient-trials error;
a list whose first already-averaged entry sits at position `i` yields the
already-averaged error naming position `i` and that entry's trial count. -/
theorem averageDipoles_correct :
    (∀ (dpls : List Dipole) (avg : Dipole),
        2 ≤ dpls.length → (∀ d ∈ dpls, d.nave = 1) →
        averageDipoles dpls = .ok avg →
        avg.nave = dpls.length ∧
        avg.times = (dpls.headD default).times ∧
        (∀ i, i < (dpls.headD default).agg.length →
          avg.agg.getD i 0 =
            (dpls.map (fun d => d.agg.getD i 0)).sum / (dpls.length : ℚ)) ∧
        (∀ i, i < (dpls.headD default).L2.length →
          avg.L2.getD i 0 =
            (dpls.map (fun d => d.L2.getD i 0)).sum / (dpls.length : ℚ)) ∧
        (∀ i, i < (dpls.headD default).L5.length →
          avg.L5.getD i 0 =
            (dpls.map (fun d => d.L5.getD i 0)).sum / (dpls.length : ℚ))) ∧
    (∀ d : Dipole, averageDipoles [d] = .error insufficientMsg) ∧
    (∀ (dpls : List Dipole) (i : ℕ),
        2 ≤ dpls.length → i < dpls.length →
        (dpls.getD i default).nave > 1 →
        (∀ j, j < i → (dpls.getD j default).nave = 1) →
        averageDipoles dpls =
          .error (alreadyAveragedMsg i (dpls.getD i default).nave)) := by
  refine ⟨?_, ?_, ?_⟩
  · intro dpls avg h2 h1 heq
    have hnone := findOffending_none dpls h1 0
    cases dpls with
    | nil => simp at h2
    | cons d0 rest =>
        simp only [averageDipoles, hnone, Nat.not_lt.mpr h2, if_neg
          (by omega : ¬ (d0 :: rest).length < 2)] at heq
        injection heq with heq
        subst heq
        refine ⟨rfl, rfl, ?_, ?_, ?_⟩
        · intro i hi
          have := meanLists_getD d0.agg (rest.map (·.agg)) i hi
          simpa [dipoleInit, List.map_map, Function.comp] using this
        · intro i hi
          have := meanLists_getD d0.L2 (rest.map (·.L2)) i hi
          simpa [dipoleInit, List.map_map, Function.comp] using this
        · intro i hi
          have := meanLists_getD d0.L5 (rest.map (·.L5)) i hi
          simpa [dipoleInit, List.map_map, Function.comp] using this
  · intro d
    simp [averageDipoles]
  · intro dpls i h2 hi hbad hfirst
    have hfo := findOffending_first dpls i hi hbad hfirst 0
    rw [Nat.zero_add] at hfo
    simp only [averageDipoles, if_neg (by omega : ¬ dpls.length < 2), hfo]

/-- Concrete single-trial dipole for witnesses. -/
def dA : Dipole := dipoleInit [0, 1] [1, 1] [2, 2] [3, 3]

/-- Second concrete single-trial dipole for witnesses. -/
def dB : Dipole := dipoleInit [0, 1] [3, 5] [4, 6] [5, 7]

/-- A dipole that is already an average of 3 trials. -/
def dBad : Dipole := dipoleInit [0, 1] [0, 0] [0, 0] [0, 0] 3

/-- The value `average_dipoles([dA, dB])` produces. -/
def avgAB : Dipole :=
  { times := [0, 1], agg := [2, 3], L2 := [3, 4], L5 := [4, 5],
    nave := 2, units := "fAm", sfreq := 1000 }

theorem averageDipoles_dAdB : averageDipoles [dA, dB] = .ok avgAB := by
  simp only [averageDipoles, findOffending, meanLists, dA, dB, dipoleInit]
  norm_num [avgAB, List.range_succ]

/-- Witness for C3: averaging the two concrete trials gives `nave = 2` and the
pointwise mean; one trial alone is rejected; a pair whose second member is
already an average of 3 trials is rejected naming position 1. -/
theorem averageDipoles_correct_witness :
    avgAB.nave = 2 ∧
    avgAB.agg.getD 0 0 = (dA.agg.getD 0 0 + dB.agg.getD 0 0) / 2 ∧
    averageDipoles [dA] = .error insufficientMsg ∧
    averageDipoles [dA, dBad] = .error (alreadyAveragedMsg 1 3) := by
  have hmem : ∀ d ∈ [dA, dB], d.nave = 1 := by
    intro d hd
    simp only [List.mem_cons, List.not_mem_nil, or_false] at hd
    rcases hd with h | h <;> subst h <;> rfl
  have hok := averageDipoles_correct.1 [dA, dB] avgAB (by norm_num) hmem
    averageDipoles_dAdB
  refine ⟨hok.1, ?_, averageDipoles_correct.2.1 dA, ?_⟩
  · have := hok.2.2.1 0 (by norm_num [dA, dipoleInit])
    simpa using this
  · have := averageDipoles_correct.2.2 [dA, dBad] 1 (by norm_num)
      (by norm_num) (by norm_num [dBad, dipoleInit])
      (by
        intro j hj
        interval_cases j
        rfl)
    simpa [dBad, dipoleInit] using this

/-- C9: every dipole returned by `average_dipoles` has units `'fAm'`,
regardless of the inputs' units: the `Dipole` constructor unconditionally sets
`units = 'fAm'` and `average_dipoles` never overrides it. -/
theorem averageDipoles_units (dpls : List Dipole) (avg : Dipole)
    (h : averageDipoles dpls = .ok avg) : avg.units = "fAm" := by
  unfold averageDipoles at h
  split at h
  · exact absurd h (by simp)
  · cases hfo : findOffending dpls 0 with
    | none =>
        rw [hfo] at h
        simp only at h
        injection h with h
        subst h
        rfl
    | some p =>
        rw [hfo] at h
        simp at h

/-- Witness for C9 at the concrete pair of trials. -/
theorem averageDipoles_units_witness : avgAB.units = "fAm" :=
  averageDipoles_units [dA, dB] avgAB averageDipoles_dAdB

/-- Python `int(np.round(q))`: round half to even. -/
def roundHalfEven (q : ℚ) : ℤ :=
  let f := ⌊q⌋
  let r := q - (f : ℚ)
  if r < 1 / 2 then f
  else if 1 / 2 < r then f + 1
  else if f % 2 = 0 then f else f + 1

/-- `_savgol_filter(data, h_freq, sfreq)` (`dipole.py` lines 22-55): rejects
`h_freq >= sfreq / 2.`; with `h_freq = 0` Python's `sfreq / h_freq` raises
`ZeroDivisionError`; otherwise applies `scipy.signal.savgol_filter` (external,
passed in as `savgol`; polyorder 5) with the derived odd window length
`(int(np.round(sfreq / h_freq)) // 2) * 2 + 1` (Python `//` is floor
division, hence `Int.fdiv`). -/
def savgolFilter (savgol : List ℚ → ℤ → List ℚ) (data : List ℚ)
    (hfreq sfreq : ℚ) : Except String (List ℚ) :=
  if sfreq / 2 ≤ hfreq then
    .error "h_freq must be less than half the sample rate"
  else if hfreq = 0 then .error "ZeroDivisionError"
  else
    let windowLength := (Int.fdiv (roundHalfEven (sfreq / hfreq)) 2) * 2 + 1
    .ok (savgol data windowLength)

/-- Fixed fragment of the window-too-long message (the Python message also
interpolates `winsz` and the data length). -/
def windowTooLongMsg : String := "Window length too long"

/-- `Dipole.smooth(window_len=..., h_freq=...)` (`dipole.py` lines 254-312).
Exactly one of the two arguments must be supplied.  The window method derives
`winsz = 1e-3 * window_len * sfreq`, rejects `winsz > len(times)`, is an
explicit no-op for `winsz ≤ 1`, and otherwise convolves each layer with the
normalized Hamming window (`_hammfilt`, whose numpy kernel is the external
parameter `hamm`).  The cutoff method rejects `h_freq < 0` and
`h_freq > 0.5 * sfreq`, then filters each of `agg`, `L2`, `L5` in dict order
through `_savgol_filter`, whose own `h_freq >= sfreq / 2` check covers
equality; a raise there propagates before any layer is reassigned. -/
def smooth (hamm : List ℚ → ℚ → List ℚ) (savgol : List ℚ → ℤ → List ℚ)
    (d : Dipole) (windowLen hfreq : Option ℚ) : Except String Dipole :=
  match windowLen, hfreq with
  | none, none => .error "either window_len or h_freq must be defined"
  | some _, some _ => .error "set window_len or h_freq, not both"
  | some wl, none =>
      let winsz := (1 / 1000) * wl * d.sfreq
      if winsz > (d.times.length : ℚ) then .error windowTooLongMsg
      else if winsz ≤ 1 then .ok d
      else .ok { d with agg := hamm d.agg winsz, L2 := hamm d.L2 winsz,
                        L5 := hamm d.L5 winsz }
  | none, some hf =>
      if hf < 0 then .error "h_freq cannot be negative"
      else if hf > (1 / 2) * d.sfreq then
        .error "h_freq must be less than half the sample rate"
      else do
        let agg ← savgolFilter savgol d.agg hf d.sfreq
        let l2 ← savgolFilter savgol d.L2 hf d.sfreq
        let l5 ← savgolFilter savgol d.L5 hf d.sfreq
        return { d with agg := agg, L2 := l2, L5 := l5 }

/-- C6: for every Dipole and window smoothing kernel, with
`winsz = 1e-3 * window_len * sfreq`: if `winsz ≤ 1` (and the dipole has at
least one sample, so the too-long check cannot fire first) the call returns
the dipole bit-identical to the input, and if `winsz` exceeds the sample
count it fails with the window-too-long error, modifying nothing. -/
theorem smooth_window_edge (hamm : List ℚ → ℚ → List ℚ)
    (savgol : List ℚ → ℤ → List ℚ) (d : Dipole) (wl : ℚ) :
    ((1 / 1000) * wl * d.sfreq ≤ 1 → 1 ≤ (d.times.length : ℚ) →
      smooth hamm savgol d (some wl) none = .ok d) ∧
    ((d.times.length : ℚ) < (1 / 1000) * wl * d.sfreq →
      smooth hamm savgol d (some wl) none = .error windowTooLongMsg) := by
  constructor
  · intro h1 hlen
    simp only [smooth]
    rw [if_neg (by push_neg; linarith), if_pos h1]
  · intro hbig
    simp only [smooth]
    rw [if_pos hbig]

/-- Witness for C6 at `dZero` (`sfreq = 1000`, 2 samples): a 1 ms window has
`winsz = 1` and is a no-op; a 10 ms window has `winsz = 10 > 2` and errors. -/
theorem smooth_window_edge_witness :
    smooth (fun l _ => l) (fun l _ => l) dZero (some 1) none = .ok dZero ∧
    smooth (fun l _ => l) (fun l _ => l) dZero (some 10) none =
      .error windowTooLongMsg :=
  ⟨(smooth_window_edge (fun l _ => l) (fun l _ => l) dZero 1).1
      (by norm_num [dZero, dipoleInit]) (by norm_num [dZero, dipoleInit]),
   (smooth_window_edge (fun l _ => l) (fun l _ => l) dZero 10).2
      (by norm_num [dZero, dipoleInit])⟩

/-- C7: for every Dipole with positive sample rate, the cutoff-frequency
method rejects every `h_freq < 0` and every `h_freq ≥ sfreq / 2` (equality
included, caught inside `_savgol_filter`), and in both failure cases the call
returns an error, so no layer is modified. -/
theorem smooth_hfreq_reject (hamm : List ℚ → ℚ → List ℚ)
    (savgol : List ℚ → ℤ → List ℚ) (d : Dipole) (hf : ℚ)
    (hs : 0 < d.sfreq) :
    (hf < 0 → smooth hamm savgol d none (some hf) =
      .error "h_freq cannot be negative") ∧
    (d.sfreq / 2 ≤ hf → smooth hamm savgol d none (some hf) =
      .error "h_freq must be less than half the sample rate") := by
  constructor
  · intro hneg
    simp only [smooth]
    rw [if_pos hneg]
  · intro hnyq
    simp only [smooth]
    rw [if_neg (by push_neg; linarith)]
    rcases lt_or_le ((1 / 2) * d.sfreq) hf with hlt | hle
    · rw [if_pos hlt]
    · rw [if_neg (by push_neg; exact hle)]
      have hfail : savgolFilter savgol d.agg hf d.sfreq =
          .error "h_freq must be less than half the sample rate" := by
        simp only [savgolFilter]
        rw [if_pos hnyq]
      rw [hfail]
      rfl

/-- Witness for C7 at `dZero` (`sfreq = 1000`): `h_freq = -1` and
`h_freq = 500 = sfreq / 2` are both rejected. -/
theorem smooth_hfreq_reject_witness :
    smooth (fun l _ => l) (fun l _ => l) dZero none (some (-1)) =
      .error "h_freq cannot be negative" ∧
    smooth (fun l _ => l) (fun l _ => l) dZero none (some 500) =
      .error "h_freq must be less than half the sample rate" :=
  ⟨(smooth_hfreq_reject (fun l _ => l) (fun l _ => l) dZero (-1)
      (by norm_num [dZero, dipoleInit])).1 (by norm_num),
   (smooth_hfreq_reject (fun l _ => l) (fun l _ => l) dZero 500
      (by norm_num [dZero, dipoleInit])).2 (by norm_num [dZero, dipoleInit])⟩

/-- Apply a numpy boolean mask to an array: keep the entries whose mask bit
is true (`arr[mask]` for arrays of equal length). -/
def maskFilter (mask : List Bool) (xs : List ℚ) : List ℚ :=
  ((mask.zip xs).filter (fun p => p.1)).map (fun p => p.2)

/-- `_get_plot_data(dpl, layer, tmin, tmax, scaling=1)` (`viz.py` lines
24-36): clamp the requested window to the available range (`plot_tmin`
defaults to `times[0]`, `plot_tmax` to `times[-1]`), mask with
`times >= plot_tmin` and the strict `times < plot_tmax`, and return the
scaled masked data together with the masked times. -/
def getPlotData (d : Dipole) (layer : String) (tmin tmax : Option ℚ)
    (scaling : ℚ := 1) : List ℚ × List ℚ :=
  let plotTmin := match tmin with
    | none => d.times.getD 0 0
    | some t => max t (d.times.getD 0 0)
  let plotTmax := match tmax with
    | none => d.times.getLastD 0
    | some t => min t (d.times.getLastD 0)
  let mask := d.times.map (fun t => decide (plotTmin ≤ t ∧ t < plotTmax))
  ((maskFilter mask (d.layerData layer)).map (fun x => scaling * x),
   maskFilter mask d.times)

theorem maskFilter_map_self (p : ℚ → Prop) [DecidablePred p] (ts : List ℚ) :
    maskFilter (ts.map (fun t => decide (p t))) ts =
      ts.filter (fun t => decide (p t)) := by
  induction ts with
  | nil => rfl
  | cons t ts ih =>
      by_cases h : p t <;>
        simp [maskFilter, List.filter, h] <;>
        simpa [maskFilter] using ih

theorem maskFilter_map_length (p : ℚ → Prop) [DecidablePred p]
    (ts xs : List ℚ) (h : xs.length = ts.length) :
    (maskFilter (ts.map (fun t => decide (p t))) xs).length =
      (ts.filter (fun t => decide (p t))).length := by
  induction ts generalizing xs with
  | nil =>
      cases xs with
      | nil => rfl
      | cons y ys => simp at h
  | cons t ts ih =>
      cases xs with
      | nil => simp at h
      | cons y ys =>
          have hlen : ys.length = ts.length := by simpa using h
          by_cases hp : p t <;>
            simp [maskFilter, List.filter, hp] <;>
            simpa [maskFilter] using ih ys hlen

/-- On a strictly increasing list, the mask `head ≤ t < last` keeps exactly
the list without its final element. -/
theorem sorted_filter_head_lt_last (ts : List ℚ) (hne : ts ≠ [])
    (hsort : ts.Pairwise (· < ·)) :
    ts.filter (fun t => decide (ts.getD 0 0 ≤ t ∧ t < ts.getLastD 0)) =
      ts.dropLast := by
  have hlast : ts.getLastD 0 = ts.getLast hne := by
    rw [List.getLastD_eq_getLast?, List.getLast?_eq_getLast ts hne]
    rfl
  have hdecomp : ts.dropLast ++ [ts.getLast hne] = ts :=
    List.dropLast_append_getLast hne
  have hmem_lt : ∀ x ∈ ts.dropLast, x < ts.getLast hne := by
    intro x hx
    have hs : (ts.dropLast ++ [ts.getLast hne]).Pairwise (· < ·) := by
      rw [hdecomp]; exact hsort
    exact (List.pairwise_append.mp hs).2.2 x hx _ (by simp)
  have hhead : ∀ x ∈ ts, ts.getD 0 0 ≤ x := by
    cases ts with
    | nil => simp
    | cons a rest =>
        intro x hx
        rcases List.mem_cons.mp hx with rfl | hx
        · simp
        · simp only [List.getD_cons_zero]
          exact le_of_lt ((List.pairwise_cons.mp hsort).1 x hx)
  have hstep : ts.filter
      (fun t => decide (ts.getD 0 0 ≤ t ∧ t < ts.getLastD 0)) =
      (ts.dropLast ++ [ts.getLast hne]).filter
        (fun t => decide (ts.getD 0 0 ≤ t ∧ t < ts.getLastD 0)) := by
    rw [hdecomp]
  have h1 : ts.dropLast.filter
      (fun t => decide (ts.getD 0 0 ≤ t ∧ t < ts.getLastD 0)) =
      ts.dropLast := by
    rw [List.filter_eq_self]
    intro a ha
    simp only [decide_eq_true_eq]
    refine ⟨hhead a ?_, ?_⟩
    · rw [← hdecomp]
      exact List.mem_append_left _ ha
    · rw [hlast]
      exact hmem_lt a ha
  have h2 : [ts.getLast hne].filter
      (fun t => decide (ts.getD 0 0 ≤ t ∧ t < ts.getLastD 0)) = [] := by
    have hpf : (decide (ts.getD 0 0 ≤ ts.getLast hne ∧
        ts.getLast hne < ts.getLastD 0)) = false := by
      rw [hlast]
      simp
    simp only [List.filter_cons, List.filter_nil, hpf]
    rfl
  rw [hstep, List.filter_append, h1, h2, List.append_nil]

/-- C10: with no time window requested (`tmin = tmax = None`), for every
Dipole with strictly increasing times and every layer whose data has the same
length as `times`, `_get_plot_data` returns the times without their final
sample (the mask's upper bound `times < plot_tmax = times[-1]` is strict) and
values of length `len(times) - 1`. -/
theorem getPlotData_drops_last (d : Dipole) (layer : String) (scaling : ℚ)
    (hne : d.times ≠ []) (hsort : d.times.Pairwise (· < ·))
    (hlen : (d.layerData layer).length = d.times.length) :
    (getPlotData d layer none none scaling).2 = d.times.dropLast ∧
    (getPlotData d layer none none scaling).1.length = d.times.length - 1 := by
  constructor
  · show maskFilter _ d.times = _
    rw [maskFilter_map_self (fun t => d.times.getD 0 0 ≤ t ∧
      t < d.times.getLastD 0) d.times]
    exact sorted_filter_head_lt_last d.times hne hsort
  · show ((maskFilter _ _).map _).length = _
    rw [List.length_map]
    rw [maskFilter_map_length (fun t => d.times.getD 0 0 ≤ t ∧
      t < d.times.getLastD 0) d.times (d.layerData layer) hlen]
    rw [sorted_filter_head_lt_last d.times hne hsort]
    exact List.length_dropLast d.times

/-- Concrete three-sample dipole for the C10 witness. -/
def dC10 : Dipole := dipoleInit [0, 1, 2] [5, 6, 7] [1, 2, 3] [4, 5, 6]

/-- Witness for C10 at `dC10`: the returned times drop the final sample and
the values have length 2 = 3 - 1. -/
theorem getPlotData_drops_last_witness :
    (getPlotData dC10 "agg" none none 2).2 = dC10.times.dropLast ∧
    (getPlotData dC10 "agg" none none 2).1.length = dC10.times.length - 1 :=
  getPlotData_drops_last dC10 "agg" 2 (by simp [dC10, dipoleInit])
    (by norm_num [dC10, dipoleInit])
    (by simp [dC10, dipoleInit, Dipole.layerData])

/-- First error message of `_check_nfft` (fixed fragment; the Python message
also interpolates `n_fft` and `n`). -/
def nfftNoneMsg : String :=
  "If n_per_seg is None n_fft is not allowed to be > n_times."

/-- Overlap error message of `_check_nfft`, interpolating the overlap and the
clipped segment length as the Python f-string does. -/
def overlapMsg (novl nps : ℕ) : String :=
  "n_overlap cannot be greater than n_per_seg (or n_fft). Got n_overlap of " ++
    toString novl ++ " while n_per_seg is " ++ toString nps ++ "."

/-- The two sequential reassignments of `n_per_seg` in `_check_nfft`
(`viz.py` lines 526-527): `n_per_seg = n_fft if n_per_seg is None or
n_per_seg > n_fft else n_per_seg`, then `n_per_seg = n if n_per_seg > n else
n_per_seg`. -/
def clipNps (n nfft : ℕ) (nps : Option ℕ) : ℕ :=
  let nps1 := match nps with
    | none => nfft
    | some m => if m > nfft then nfft else m
  if nps1 > n then n else nps1

/-- `_check_nfft(n, n_fft, n_per_seg, n_overlap)` (`viz.py` lines 519-532):
errors when `n_per_seg` is `None` and `n_fft > n`; clips `n_per_seg` via
`clipNps`; errors when `n_overlap >= n_per_seg`; otherwise returns the
triple `(n_fft, n_per_seg, n_overlap)`. -/
def checkNfft (n nfft : ℕ) (nps : Option ℕ) (novl : ℕ) :
    Except String (ℕ × ℕ × ℕ) :=
  if nps = none ∧ nfft > n then .error nfftNoneMsg
  else if novl ≥ clipNps n nfft nps then
    .error (overlapMsg novl (clipNps n nfft nps))
  else .ok (nfft, clipNps n nfft nps, novl)

/-- When the requested segment length exceeds the sample count, the clipped
value is `min n_fft n`, not necessarily `n`. -/
theorem clipNps_of_big (n nfft nps : ℕ) (hbig : n < nps) :
    clipNps n nfft (some nps) = min nfft n := by
  simp only [clipNps]
  split_ifs <;> omega

/-- C4 counterexample: `n = 10` available samples, `n_fft = 5`,
`n_per_seg = 20 > 10`, `n_overlap = 7`.  The claim (clip to `n`, no error
since `7 < 10`) demands success, but `_check_nfft` clips to
`min(n_fft, n) = 5` and raises because `7 ≥ 5`. -/
theorem checkNfft_counterexample :
    (7 < 10 ∧ 10 < 20) ∧
    checkNfft 10 5 (some 20) 7 = .error (overlapMsg 7 5) := by
  constructor
  · exact ⟨by norm_num, by norm_num⟩
  · rfl

/-- C4 (amended): when `n_per_seg` exceeds the available sample count `n`,
the segment length is clipped to `min(n_fft, n)` — equal to `n` whenever
`n_fft ≥ n`, as with the default `n_fft = 2^14` — and the call succeeds iff
`n_overlap` is strictly less than that clipped value, raising the overlap
error otherwise. -/
theorem checkNfft_clip_amended (n nfft nps novl : ℕ) (hbig : n < nps) :
    (novl < min nfft n →
      checkNfft n nfft (some nps) novl = .ok (nfft, min nfft n, novl)) ∧
    (min nfft n ≤ novl →
      checkNfft n nfft (some nps) novl =
        .error (overlapMsg novl (min nfft n))) := by
  have hclip := clipNps_of_big n nfft nps hbig
  constructor
  · intro hlt
    simp only [checkNfft, hclip]
    rw [if_neg (by simp), if_neg (by omega)]
  · intro hge
    simp only [checkNfft, hclip]
    rw [if_neg (by simp), if_pos (by omega)]

/-- Witness for C4's amended theorem: `n = 10`, `n_fft = 16`,
`n_per_seg = 20`, so the clip is `min(16, 10) = 10`; `n_overlap = 9`
succeeds and `n_overlap = 10` errors. -/
theorem checkNfft_clip_amended_witness :
    checkNfft 10 16 (some 20) 9 = .ok (16, min 16 10, 9) ∧
    checkNfft 10 16 (some 20) 10 = .error (overlapMsg 10 (min 16 10)) :=
  ⟨(checkNfft_clip_amended 10 16 20 9 (by norm_num)).1 (by norm_num),
   (checkNfft_clip_amended 10 16 20 10 (by norm_num)).2 (by norm_num)⟩

/-- The Python argument accepted by `_decimate_plot_data` for `decim`: an
int, a list of ints, or a value of any other type. -/
inductive DecimArg where
  | int (n : ℤ)
  | intList (l : List ℤ)
  | other
deriving DecidableEq, Repr

/-- Validation message of `_decimate_plot_data` (fixed fragment; the Python
f-string appends the offending type, and the original concatenation
`'...a int or list' f'of ints...'` lacks a space). -/
def decimValidationMsg : String :=
  "the decimation factor must be a int or listof ints"

/-- Python `times[::dec]` for stride `dec ≥ 1`: every `dec`-th element. -/
def strideSlice : List ℚ → ℕ → List ℚ
  | [], _ => []
  | x :: xs, d => x :: strideSlice (xs.drop (d - 1)) d
termination_by l _ => l.length
decreasing_by
  simp only [List.length_drop, List.length_cons]
  omega

/-- The `for dec in decim` loop of `_decimate_plot_data`:
`data = decimate(data, dec)` (scipy's anti-alias filter and subsample,
external, passed in as `dec`) and `times = times[::dec]`.  A non-positive
stride never survives a real run, because scipy's `decimate` raises on it
before the slicing executes. -/
def decimSteps (dec : List ℚ → ℤ → List ℚ) :
    List ℤ → List ℚ × List ℚ → List ℚ × List ℚ
  | [], p => p
  | f :: fs, p => decimSteps dec fs (dec p.1 f, strideSlice p.2 f.toNat)

/-- `_decimate_plot_data(decim, data, times, sfreq=None)` (`viz.py` lines
39-54): an `int` is wrapped into a one-element list; anything that is neither
an int nor a list raises the validation error; each factor is then applied in
sequence, and a supplied sample rate is divided by `np.prod(decim)`. -/
def decimatePlotData (dec : List ℚ → ℤ → List ℚ) (decim : DecimArg)
    (data times : List ℚ) (sfreq : Option ℚ) :
    Except String (List ℚ × List ℚ × Option ℚ) :=
  match decim with
  | .other => .error decimValidationMsg
  | .int n =>
      let p := decimSteps dec [n] (data, times)
      .ok (p.1, p.2, sfreq.map (fun s => s / ((n : ℚ))))
  | .intList l =>
      let p := decimSteps dec l (data, times)
      .ok (p.1, p.2, sfreq.map (fun s => s / ((l.prod : ℚ))))

/-- C8 counterexample: the decimation factor 0 is an integer but not a
positive one, yet `_decimate_plot_data` raises no validation error on it: the
only check is `isinstance(decim, int)` / `isinstance(decim, list)`, so the
bare factor 0 is wrapped and handed straight to scipy. -/
theorem decimate_validation_counterexample :
    decimatePlotData (fun data _ => data) (.int 0) [1, 2] [0, 1]
      (some 1000) ≠ .error decimValidationMsg :=
  fun h => Except.noConfusion h

/-- C8 (amended): `_decimate_plot_data` raises its validation error exactly
for arguments that are neither an int nor a list — the values of the factors
themselves (in particular non-positive integers) are never validated here but
passed on to scipy's `decimate` — and whenever a chain of factors is applied
with a supplied sample rate, the returned rate is the original divided by the
product of the factors. -/
theorem decimate_amended (dec : List ℚ → ℤ → List ℚ)
    (data times : List ℚ) (s : ℚ) :
    (decimatePlotData dec .other data times (some s) =
      .error decimValidationMsg) ∧
    (∀ n : ℤ, decimatePlotData dec (.int n) data times (some s) =
      .ok ((decimSteps dec [n] (data, times)).1,
           (decimSteps dec [n] (data, times)).2, some (s / (n : ℚ)))) ∧
    (∀ l : List ℤ, decimatePlotData dec (.intList l) data times (some s) =
      .ok ((decimSteps dec l (data, times)).1,
           (decimSteps dec l (data, times)).2, some (s / (l.prod : ℚ)))) :=
  ⟨rfl, fun _ => rfl, fun _ => rfl⟩

/-- Witness for C8's amended theorem: a non-list, non-int argument errors; the
bare factor 0 does not; a chain `[2, 3]` divides the rate 1200 by 6. -/
theorem decimate_amended_witness :
    decimatePlotData (fun data _ => data) .other [1] [0] (some 1200) =
      .error decimValidationMsg ∧
    decimatePlotData (fun data _ => data) (.intList [2, 3]) [1] [0]
      (some 1200) =
      .ok ((decimSteps (fun data _ => data) [2, 3] ([1], [0])).1,
           (decimSteps (fun data _ => data) [2, 3] ([1], [0])).2,
           some (1200 / (([2, 3] : List ℤ).prod : ℚ))) :=
  ⟨(decimate_amended (fun data _ => data) [1] [0] 1200).1,
   (decimate_amended (fun data _ => data) [1] [0] 1200).2.2 [2, 3]⟩

/-- Zero padding of `plot_tfr_morlet` (`viz.py` lines 414-416):
`len(data) - 1` zeros prepended and appended. -/
def padZeros (data : List ℚ) : List ℚ :=
  List.replicate (data.length - 1) 0 ++ data ++
    List.replicate (data.length - 1) 0

/-- Mirror padding (`viz.py` line 418):
`np.r_[data[-1:0:-1], data, data[-2::-1]]` — the reverse of `data[1:]`, then
`data`, then the reverse of `data[:-1]`. -/
def padMirror (data : List ℚ) : List ℚ :=
  (data.drop 1).reverse ++ data ++ data.dropLast.reverse

/-- The crop after the transform (`viz.py` line 427):
`power[..., times.shape[0] - 1 : 2 * times.shape[0] - 1]` along the time
axis; a Python slice `[a:b]` drops `a` and takes `b - a`. -/
def cropTfr (power : List ℚ) (ltimes : ℕ) : List ℚ :=
  (power.drop (ltimes - 1)).take (2 * ltimes - 1 - (ltimes - 1))
/-- C5: for every extracted segment of length `L ≥ 1`, both padding modes add
exactly `L - 1` samples on each side (total `L + 2(L-1)`); cropping any
transform result of that padded length yields a time axis of exactly length
`L`; and cropping the padded signal itself recovers the original segment, so
the cropped window is aligned with the pre-padding one. -/
theorem tfr_pad_crop (data : List ℚ) (hL : 1 ≤ data.length) :
    (padZeros data).length = data.length + 2 * (data.length - 1) ∧
    (padMirror data).length = data.length + 2 * (data.length - 1) ∧
    (∀ power : List ℚ,
      power.length = data.length + 2 * (data.length - 1) →
      (cropTfr power data.length).length = data.length) ∧
    cropTfr (padZeros data) data.length = data ∧
    cropTfr (padMirror data) data.length = data := by
  refine ⟨?_, ?_, ?_, ?_, ?_⟩
  · simp only [padZeros, List.length_append, List.length_replicate]
    omega
  · simp only [padMirror, List.length_append, List.length_reverse,
      List.length_drop, List.length_dropLast]
    omega
  · intro power hp
    simp only [cropTfr, List.length_take, List.length_drop, hp]
    omega
  · have harith : 2 * data.length - 1 - (data.length - 1) = data.length := by
      omega
    simp only [cropTfr, padZeros, harith]
    rw [List.append_assoc]
    simp
  · have harith : 2 * data.length - 1 - (data.length - 1) = data.length := by
      omega
    simp only [cropTfr, padMirror, harith]
    rw [List.append_assoc]
    simp

/-- Witness for C5 at the two-sample segment `[1, 2]`. -/
theorem tfr_pad_crop_witness :
    (padZeros [1, 2]).length = 2 + 2 * 1 ∧
    cropTfr (padZeros [1, 2]) 2 = [1, 2] ∧
    cropTfr (padMirror [1, 2]) 2 = [1, 2] := by
  have h := tfr_pad_crop [1, 2] (by norm_num)
  exact ⟨h.1, h.2.2.2.1, h.2.2.2.2⟩
